import Mathlib

/-!
# Release-train dashboard: state machine and registry, shallowly embedded

This file embeds the release-train core of the repository in Lean:

* the Supabase-backed progression engine of `useReleaseTrains`
  (`src/unnamed/part_000`, lines 504-684): `updateStopStatus`, `startTrain`,
  `advanceToNextStop`, `resetTrain`;
* the local-storage demo engine of `src/src/hooks/useReleaseData.ts`:
  `updateStopStatus` and `advanceToNextStop` over a `ReleaseRun`;
* the roster editor of `useAllReleases` (`src/unnamed/part_001`):
  `updateReleaseStops` with its delete / add / renumber passes;
* the dashboard release registry (`src/unnamed/part_009`): `compareVersions`
  and the per-track classification into current-active / recently-completed /
  archived buckets.

Timestamps (ISO strings in the source) are modelled as `Nat`; principal ids
and row ids (uuids in the source) as `Nat`.  JavaScript's stable `Array.sort`
is modelled by `List.insertionSort`, which is stable; for the comparators in
question (total preorders, proved below) every stable sort produces the same
list, so this is observationally faithful.
-/

namespace ReleaseDash

/-- Stop status enum (`not_started | in_progress | done | blocked`); the demo
hook spells the values with hyphens, the Supabase schema with underscores —
both denote this enum. -/
inductive StopStatus
  | not_started
  | in_progress
  | done
  | blocked
  deriving DecidableEq

/-- A row of the `stops` table (`Stop` interface of `useReleaseTrains`). -/
structure Stop where
  id : Nat
  number : Nat
  title : String
  description : Option String
  owner_type : String
  owner_name : String
  status : StopStatus
  started_at : Option Nat
  completed_at : Option Nat
  updated_by : Option Nat
  deriving DecidableEq

/-- A row of the `notes` table. -/
structure Note where
  id : Nat
  stop_id : Nat
  author_id : Nat
  author_name : String
  text : String
  created_at : Nat
  deriving DecidableEq

/-- One train's cached data: its stops (fetched ordered by `number`) and the
notes attached to its stops. -/
structure TrainState where
  stops : List Stop
  notes : List Note
  deriving DecidableEq

/-- Error kinds thrown by the hooks (`throw new Error(...)` sites). -/
inductive EngineError
  | permissionDenied
  | noStopsFound
  | alreadyStarted
  | adminRequired
  deriving DecidableEq

/-- The row update built by `updateStopStatus` in `useReleaseTrains`
(part_000 lines 546-561) and merged into the stop row.  The source guard is
`if (status === 'in_progress' && !updates.started_at)`: it inspects the
freshly built `updates` object — which never carries `started_at` at that
point — so the guard's second conjunct is always true and `started_at` is
assigned `now` on every transition to `in_progress`.  `completed_at` is set
on `done` and cleared on `in_progress`; fields absent from the update keep
their stored values. -/
def applyStopUpdate (s : Stop) (status : StopStatus) (actor now : Nat) : Stop :=
  { s with
    status := status
    updated_by := some actor
    started_at := if status = .in_progress then some now else s.started_at
    completed_at :=
      if status = .done then some now
      else if status = .in_progress then none
      else s.completed_at }

/-- The effect of the stop-row update on the train's stop list: the row with
the given id is replaced (local state maps over the lists the same way). -/
def updStops (stops : List Stop) (stopId : Nat) (status : StopStatus)
    (actor now : Nat) : List Stop :=
  stops.map fun s => if s.id = stopId then applyStopUpdate s status actor now else s

/-- `updateStopStatus` of `useReleaseTrains` (part_000 lines 546-584). -/
def updateStopStatus (canEdit : Bool) (stops : List Stop) (stopId : Nat)
    (status : StopStatus) (actor now : Nat) : Except EngineError (List Stop) :=
  if canEdit then .ok (updStops stops stopId status actor now)
  else .error .permissionDenied

/-- `startTrain` of `useReleaseTrains` (part_000 lines 605-615): find the stop
with `number === 1`; `'No stops found'` if absent, `'Train already started'`
if it is not `not_started`, otherwise move it to `in_progress`. -/
def startTrain (canEdit : Bool) (stops : List Stop) (actor now : Nat) :
    Except EngineError (List Stop) :=
  if canEdit then
    match stops.find? (fun s => s.number == 1) with
    | none => .error .noStopsFound
    | some firstStop =>
      if firstStop.status = .not_started then
        updateStopStatus canEdit stops firstStop.id .in_progress actor now
      else .error .alreadyStarted
  else .error .permissionDenied

/-- `advanceToNextStop` of `useReleaseTrains` (part_000 lines 586-603): find
the first `in_progress` stop by index; if none, return silently; otherwise
mark it `done` (at `now1`) and, if a next array entry exists, mark that entry
`in_progress` (at `now2`).  Both target ids are read from the list as fetched,
before either write.  The `none` row branch is unreachable (`findIdx?` returns
in-range indices) and performs no write. -/
def advanceToNextStop (canEdit : Bool) (stops : List Stop) (actor now1 now2 : Nat) :
    Except EngineError (List Stop) :=
  if canEdit then
    match stops.findIdx? (fun s => s.status == .in_progress) with
    | none => .ok stops
    | some i =>
      match stops[i]?, stops[i+1]? with
      | some currentStop, some nextStop => do
        let l1 ← updateStopStatus canEdit stops currentStop.id .done actor now1
        updateStopStatus canEdit l1 nextStop.id .in_progress actor now2
      | some currentStop, none =>
        updateStopStatus canEdit stops currentStop.id .done actor now1
      | none, _ => .ok stops
  else .error .permissionDenied

/-- The per-row payload of `resetTrain`'s loop (part_000 lines 623-635). -/
def resetStopRow (s : Stop) (actor : Nat) : Stop :=
  { s with
    status := .not_started
    started_at := none
    completed_at := none
    updated_by := some actor }

/-- `resetTrain`'s `for (const stop of trainStops)` loop: the stop table
(`db`) evolves while the loop walks the captured snapshot of the train's
stops, updating one row by id per iteration. -/
def resetLoop (actor : Nat) : List Stop → List Stop → List Stop
  | db, [] => db
  | db, s :: rest =>
    resetLoop actor
      (db.map fun x => if x.id = s.id then resetStopRow x actor else x) rest

/-- `resetTrain` of `useReleaseTrains` (part_000 lines 617-639): every stop of
the train is reset to `not_started` with cleared timestamps; notes are not
touched by any statement of the function. -/
def resetTrain (canEdit : Bool) (st : TrainState) (actor : Nat) :
    Except EngineError TrainState :=
  if canEdit then .ok { stops := resetLoop actor st.stops st.stops, notes := st.notes }
  else .error .permissionDenied

/-! ## The local-storage demo engine (`src/src/hooks/useReleaseData.ts`) -/

/-- A stop of a demo `ReleaseRun` (camelCase fields, embedded notes). -/
structure RunStop where
  id : Nat
  status : StopStatus
  startedAt : Option Nat
  completedAt : Option Nat
  notes : List Note
  deriving DecidableEq

/-- A demo release run. -/
structure ReleaseRun where
  id : Nat
  updatedAt : Nat
  stops : List RunStop
  deriving DecidableEq

/-- The per-stop transform of the demo `updateStopStatus`
(useReleaseData.ts lines 67-79).  Unlike the Supabase hook, its guard reads
the existing stop: `status === 'in-progress' && !stop.startedAt`, so
`startedAt` is only assigned the first time the stop enters `in_progress`. -/
def demoUpdateStop (s : RunStop) (status : StopStatus) (now : Nat) : RunStop :=
  { s with
    status := status
    startedAt :=
      if status = .in_progress ∧ s.startedAt = none then some now else s.startedAt
    completedAt :=
      if status = .done then some now
      else if status = .in_progress then none
      else s.completedAt }

/-- Demo `updateStopStatus` (useReleaseData.ts lines 61-82), sans the
view-only guard. -/
def demoUpdateStopStatus (run : ReleaseRun) (stopId : Nat) (status : StopStatus)
    (now : Nat) : ReleaseRun :=
  { run with
    updatedAt := now
    stops := run.stops.map fun s =>
      if s.id = stopId then demoUpdateStop s status now else s }

/-- Demo `advanceToNextStop` (useReleaseData.ts lines 84-118): array-index
based; the `blocked` early return is dead code (the found stop is
`in-progress`) but is kept verbatim. -/
def demoAdvanceToNextStop (run : ReleaseRun) (now : Nat) : ReleaseRun :=
  match run.stops.findIdx? (fun s => s.status == .in_progress) with
  | none => run
  | some i =>
    match run.stops[i]? with
    | none => run
    | some currentStop =>
      if currentStop.status = .blocked then run
      else
        let s1 := run.stops.set i
          { currentStop with status := .done, completedAt := some now }
        let s2 :=
          if i < run.stops.length - 1 then
            match s1[i+1]? with
            | some nextStop =>
              s1.set (i+1) { nextStop with status := .in_progress, startedAt := some now }
            | none => s1
          else s1
        { run with updatedAt := now, stops := s2 }

/-! ## Stop roster editor (`useAllReleases`, `src/unnamed/part_001`) -/

/-- The shape of one entry of `stopsToAdd` (part_001 lines 228-234). -/
structure StopSpec where
  number : Nat
  title : String
  description : String
  ownerType : String
  ownerName : String
  deriving DecidableEq

/-- The stop row inserted by `addStops` for one spec (part_001 lines 190-198):
`description: stop.description || null`, status always `not_started`; the
database assigns a fresh row id. -/
def specToStop (freshId : Nat) (sp : StopSpec) : Stop :=
  { id := freshId
    number := sp.number
    title := sp.title
    description := if sp.description = "" then none else some sp.description
    owner_type := sp.ownerType
    owner_name := sp.ownerName
    status := .not_started
    started_at := none
    completed_at := none
    updated_by := none }

/-- Comparator precedence used by `sortedStops.sort((a, b) => a.number - b.number)`:
`a` may precede `b` iff `a.number - b.number <= 0`. -/
def numberLe (a b : Stop) : Prop := a.number ≤ b.number

instance : DecidableRel numberLe := fun a b => Nat.decLe a.number b.number

instance : IsTotal Stop numberLe := ⟨fun a b => Nat.le_total a.number b.number⟩

instance : IsTrans Stop numberLe := ⟨fun _ _ _ => Nat.le_trans⟩

/-- The renumbering pass of `updateReleaseStops` (part_001 lines 253-261):
position `i` (0-based) of the number-sorted list ends up with
`number = i + 1` (rows already holding their target number are skipped by the
source, which does not change the resulting state). -/
def renumberFrom : Nat → List Stop → List Stop
  | _, [] => []
  | k, s :: rest => { s with number := k } :: renumberFrom (k+1) rest

/-- `updateReleaseStops` (part_001 lines 226-264): admin-gated; delete the
targeted rows, insert the new ones (fresh ids), re-fetch ordered by `number`,
and renumber positionally. -/
def updateReleaseStops (isAdmin : Bool) (stops : List Stop) (stopsToAdd : List StopSpec)
    (stopIdsToDelete : List Nat) (freshId : Nat) : Except EngineError (List Stop) :=
  if isAdmin then
    let survivors := stops.filter fun s => !(stopIdsToDelete.contains s.id)
    let added := stopsToAdd.enum.map fun p => specToStop (freshId + p.1) p.2
    let sortedStops := List.insertionSort numberLe (survivors ++ added)
    .ok (renumberFrom 1 sortedStops)
  else .error .adminRequired

/-! ## Release registry (`src/unnamed/part_009` Dashboard) -/

inductive Platform
  | ios
  | android
  deriving DecidableEq

/-- The projection of `ReleaseWithDetails` the dashboard classification reads:
`is_complete` is `total_stops > 0 && completed_stops === total_stops` as
computed by `useAllReleases` (part_001 line 91). -/
structure Release where
  id : Nat
  app_id : Nat
  platform : Platform
  version : String
  updated_at : Nat
  is_complete : Bool
  deriving DecidableEq

/-- `Number(seg)` on an all-digit segment; the empty segment gives `NaN`,
which the comparator's `|| 0` fallback turns into `0`, i.e. `0` here. -/
def natOfDigitList : List Char → Nat :=
  List.foldl (fun acc c => acc * 10 + (c.toNat - '0'.toNat)) 0

/-- `String.prototype.split('.')` on a character list. -/
def splitOnDot : List Char → List Char → List (List Char)
  | [], acc => [acc.reverse]
  | c :: cs, acc =>
    if c = '.' then acc.reverse :: splitOnDot cs []
    else splitOnDot cs (c :: acc)

/-- `v.replace(/[^0-9.]/g, '').split('.').map(Number)` with the comparator's
`|| 0` fallback folded into each segment (part_009 lines 64-65). -/
def parseVersion (v : String) : List Nat :=
  (splitOnDot (v.toList.filter fun c => c.isDigit || c == '.') []).map natOfDigitList

/-- Tail of the comparison loop once the first list is exhausted: its missing
segments all read as `0`. -/
def cmpZero : List Nat → Int
  | [] => 0
  | b :: bs => if b > 0 then -1 else cmpZero bs

/-- The comparison loop of `compareVersions` (part_009 lines 66-72): compare
segments left to right, missing segments read as `0`; `1` if the first list
is greater, `-1` if smaller, `0` otherwise. -/
def cmpSegs : List Nat → List Nat → Int
  | [], lb => cmpZero lb
  | a :: as, [] => if a > 0 then 1 else cmpSegs as []
  | a :: as, b :: bs => if a > b then 1 else if a < b then -1 else cmpSegs as bs

/-- `compareVersions` (part_009 lines 63-73). -/
def compareVersions (a b : String) : Int :=
  cmpSegs (parseVersion a) (parseVersion b)

/-- Comparator precedence of `sort((a, b) => compareVersions(b.version, a.version))`:
`a` may precede `b` iff the comparator is non-positive, i.e. version-descending
order. -/
def vle (a b : Release) : Prop := compareVersions b.version a.version ≤ 0

instance : DecidableRel vle := fun a b =>
  Int.decLe (compareVersions b.version a.version) 0

/-- The three dashboard buckets built by the classification `useMemo`
(part_009 lines 76-137). -/
structure TrackBuckets where
  currentActive : List Release
  recentlyCompleted : List Release
  archived : List Release
  deriving DecidableEq

/-- `release.id === latestActive?.id`-style test (`undefined` ids never
match). -/
def idMatches (o : Option Release) (r : Release) : Bool :=
  match o with
  | some x => r.id == x.id
  | none => false

/-- The body of the classification `forEach` (part_009 lines 98-118);
`latestActive` and `firstCompleted` are the loop-invariant values
`sorted.find(r => !r.is_complete)` and `completedInTrack[0]`
(`completedInTrack.length > 0 && completedInTrack[0].id === release.id`
is the head?-match below). -/
def classifyStep (latestActive firstCompleted : Option Release)
    (acc : TrackBuckets) (release : Release) : TrackBuckets :=
  if !release.is_complete then
    if idMatches latestActive release then
      { acc with currentActive := acc.currentActive ++ [release] }
    else
      { acc with archived := acc.archived ++ [release] }
  else
    if idMatches firstCompleted release then
      { acc with recentlyCompleted := acc.recentlyCompleted ++ [release] }
    else
      { acc with archived := acc.archived ++ [release] }

/-- Classification of one track's releases (part_009 lines 91-119): sort by
version descending (stable), then bucket each release. -/
def classifyTrack (trackReleases : List Release) : TrackBuckets :=
  let sorted := List.insertionSort vle trackReleases
  let latestActive := sorted.find? fun r => !r.is_complete
  let completedInTrack := sorted.filter fun r => r.is_complete
  sorted.foldl (classifyStep latestActive completedInTrack.head?) ⟨[], [], []⟩

/-- The track grouping key `app_id + '-' + platform` (part_009 lines 79-85):
a track's release list, in the incoming order. -/
def trackGroup (releases : List Release) (appId : Nat) (p : Platform) : List Release :=
  releases.filter fun r => r.app_id == appId && r.platform == p

/-! ## Progression-engine op sequences (for the single-active-stop invariant) -/

/-- One engine call, as issued through the UI. -/
inductive EngineOp
  | start
  | advance
  | update (stopId : Nat) (status : StopStatus)
  deriving DecidableEq

/-- Apply one engine call at time `t` with edit capability; a thrown error
leaves the stop table untouched. -/
def applyOp (actor : Nat) (stops : List Stop) (t : Nat) : EngineOp → List Stop
  | .start =>
    match startTrain true stops actor t with
    | .ok l => l
    | .error _ => stops
  | .advance =>
    match advanceToNextStop true stops actor t (t+1) with
    | .ok l => l
    | .error _ => stops
  | .update stopId status =>
    match updateStopStatus true stops stopId status actor t with
    | .ok l => l
    | .error _ => stops

/-- Run a sequence of engine calls, the clock ticking between calls. -/
def runOps (actor : Nat) : List EngineOp → List Stop → Nat → List Stop
  | [], stops, _ => stops
  | op :: rest, stops, t => runOps actor rest (applyOp actor stops t op) (t + 2)

/-- A stop counting against the single-active-stop invariant. -/
def isActiveStop (s : Stop) : Bool :=
  s.status == .in_progress || s.status == .blocked

/-- Number of `in_progress`-or-`blocked` stops (filter-then-length, as the
registry computes its per-status stats in part_001 lines 87-89). -/
def activeStopCount (stops : List Stop) : Nat :=
  (stops.filter isActiveStop).length

/-! ## Properties of the version comparator -/

theorem cmpZero_nonpos : ∀ lb : List Nat, cmpZero lb ≤ 0
  | [] => by simp [cmpZero]
  | b :: bs => by
    by_cases h : b > 0 <;> simp [cmpZero, h]
    exact cmpZero_nonpos bs

theorem cmpSegs_neg (la : List Nat) : ∀ lb : List Nat, cmpSegs lb la = -cmpSegs la lb := by
  induction la with
  | nil =>
    intro lb
    induction lb with
    | nil => rfl
    | cons b bs ih =>
      by_cases h : b > 0 <;> simp [cmpSegs, cmpZero, h]
      exact ih
  | cons a as ih =>
    intro lb
    cases lb with
    | nil =>
      by_cases h : a > 0 <;> simp [cmpSegs, cmpZero, h]
      exact ih []
    | cons b bs =>
      rcases Nat.lt_trichotomy a b with h | h | h
      · simp [cmpSegs, h, Nat.lt_asymm h, Nat.ne_of_lt h]
      · subst h
        simp [cmpSegs, Nat.lt_irrefl]
        exact ih bs
      · simp [cmpSegs, h, Nat.lt_asymm h, (Nat.ne_of_lt h).symm]

theorem cmpSegs_pad (la : List Nat) : ∀ lb : List Nat, cmpSegs (la ++ [0]) lb = cmpSegs la lb := by
  induction la with
  | nil =>
    intro lb
    cases lb with
    | nil => rfl
    | cons b bs => cases b <;> simp [cmpSegs, cmpZero]
  | cons a as ih =>
    intro lb
    cases lb with
    | nil => simp [cmpSegs, ih]
    | cons b bs => simp [cmpSegs, ih]

theorem cmpSegs_pad_k (la : List Nat) (k : Nat) :
    ∀ lb : List Nat, cmpSegs (la ++ List.replicate k 0) lb = cmpSegs la lb := by
  induction k with
  | zero => simp
  | succ k ih =>
    intro lb
    rw [List.replicate_succ', ← List.append_assoc, cmpSegs_pad, ih]

theorem cmpSegs_pad_right_k (la lb : List Nat) (k : Nat) :
    cmpSegs la (lb ++ List.replicate k 0) = cmpSegs la lb := by
  rw [cmpSegs_neg (lb ++ List.replicate k 0) la, cmpSegs_pad_k, ← cmpSegs_neg lb la]

theorem cmpSegs_le_trans_len : ∀ (la lb lc : List Nat), la.length = lb.length →
    lb.length = lc.length → cmpSegs la lb ≤ 0 → cmpSegs lb lc ≤ 0 → cmpSegs la lc ≤ 0 := by
  intro la
  induction la with
  | nil =>
    intro lb lc hab hbc _ _
    have hb : lb = [] := List.length_eq_zero.mp hab.symm
    subst hb
    have hc : lc = [] := List.length_eq_zero.mp hbc.symm
    subst hc
    decide
  | cons a as ih =>
    intro lb lc hab hbc h1 h2
    cases lb with
    | nil => simp at hab
    | cons b bs =>
      cases lc with
      | nil => simp at hbc
      | cons c cs =>
        by_cases h3 : b < a
        · rw [cmpSegs, if_pos h3] at h1
          omega
        by_cases h4 : c < b
        · rw [cmpSegs, if_pos h4] at h2
          omega
        rw [cmpSegs, if_neg h3] at h1
        rw [cmpSegs, if_neg h4] at h2
        rw [cmpSegs]
        have hac : ¬ c < a := by omega
        rw [if_neg hac]
        by_cases h5 : a < c
        · rw [if_pos h5]
          omega
        · rw [if_neg h5]
          have hab2 : a = b := by omega
          have hbc2 : b = c := by omega
          subst hab2
          subst hbc2
          rw [if_neg (Nat.lt_irrefl a)] at h1 h2
          exact ih bs cs (by simpa using hab) (by simpa using hbc) h1 h2

theorem cmpSegs_le_trans (la lb lc : List Nat) (h1 : cmpSegs la lb ≤ 0)
    (h2 : cmpSegs lb lc ≤ 0) : cmpSegs la lc ≤ 0 := by
  set n := max la.length (max lb.length lc.length) with hn
  have hla : la.length ≤ n := by omega
  have hlb : lb.length ≤ n := by omega
  have hlc : lc.length ≤ n := by omega
  have e1 : cmpSegs (la ++ List.replicate (n - la.length) 0)
      (lb ++ List.replicate (n - lb.length) 0) = cmpSegs la lb := by
    rw [cmpSegs_pad_k, cmpSegs_pad_right_k]
  have e2 : cmpSegs (lb ++ List.replicate (n - lb.length) 0)
      (lc ++ List.replicate (n - lc.length) 0) = cmpSegs lb lc := by
    rw [cmpSegs_pad_k, cmpSegs_pad_right_k]
  have e3 : cmpSegs (la ++ List.replicate (n - la.length) 0)
      (lc ++ List.replicate (n - lc.length) 0) = cmpSegs la lc := by
    rw [cmpSegs_pad_k, cmpSegs_pad_right_k]
  rw [← e3]
  refine cmpSegs_le_trans_len _ _ _ ?_ ?_ (by rw [e1]; exact h1) (by rw [e2]; exact h2) <;>
    simp [List.length_append, List.length_replicate] <;> omega

instance : IsTrans Release vle :=
  ⟨fun _ b _ h1 h2 => cmpSegs_le_trans _ (parseVersion b.version) _ h2 h1⟩

instance : IsTotal Release vle := by
  refine ⟨fun a b => ?_⟩
  rcases le_or_lt (compareVersions b.version a.version) 0 with h | h
  · exact Or.inl h
  · refine Or.inr ?_
    show cmpSegs (parseVersion a.version) (parseVersion b.version) ≤ 0
    have h' : 0 < cmpSegs (parseVersion b.version) (parseVersion a.version) := h
    rw [cmpSegs_neg (parseVersion b.version) (parseVersion a.version)]
    omega

/-- Segment `i` of a parsed version, missing segments reading as `0`
(`partsA[i] || 0`). -/
def segAt (l : List Nat) (i : Nat) : Nat := l.getD i 0

theorem cmpSegs_eq_one_first_diff : ∀ (i : Nat) (la lb : List Nat),
    (∀ j, j < i → segAt la j = segAt lb j) → segAt lb i < segAt la i →
    cmpSegs la lb = 1 := by
  intro i
  induction i with
  | zero =>
    intro la lb _ hgt
    cases la with
    | nil => simp [segAt, List.getD_nil] at hgt
    | cons a as =>
      cases lb with
      | nil =>
        simp only [segAt, List.getD_nil, List.getD_cons_zero] at hgt
        rw [cmpSegs, if_pos hgt]
      | cons b bs =>
        simp only [segAt, List.getD_cons_zero] at hgt
        rw [cmpSegs, if_pos hgt]
  | succ i ih =>
    intro la lb hpre hgt
    have h0 : segAt la 0 = segAt lb 0 := hpre 0 (Nat.succ_pos i)
    cases la with
    | nil =>
      cases lb with
      | nil => simp [segAt, List.getD_nil] at hgt
      | cons b bs => simp [segAt, List.getD_nil] at hgt
    | cons a as =>
      cases lb with
      | nil =>
        simp only [segAt, List.getD_nil, List.getD_cons_zero] at h0
        rw [cmpSegs, if_neg (by omega : ¬ a > 0)]
        refine ih as [] (fun j hj => ?_) ?_
        · have := hpre (j+1) (by omega)
          simpa [segAt, List.getD_cons_succ] using this
        · simpa [segAt, List.getD_cons_succ, List.getD_nil] using hgt
      | cons b bs =>
        simp only [segAt, List.getD_cons_zero] at h0
        subst h0
        rw [cmpSegs, if_neg (Nat.lt_irrefl a), if_neg (Nat.lt_irrefl a)]
        refine ih as bs (fun j hj => ?_) ?_
        · have := hpre (j+1) (by omega)
          simpa [segAt, List.getD_cons_succ] using this
        · simpa [segAt, List.getD_cons_succ] using hgt

/-- C8: the version comparator strips non-numeric characters, splits on `.`,
and compares numeric segments left to right with missing segments read as 0:
whichever version string has the greater first differing segment compares
higher (`compareVersions` returns 1). -/
theorem compareVersions_first_diff (a b : String) (i : Nat)
    (hpre : ∀ j, j < i → segAt (parseVersion a) j = segAt (parseVersion b) j)
    (hgt : segAt (parseVersion b) i < segAt (parseVersion a) i) :
    compareVersions a b = 1 :=
  cmpSegs_eq_one_first_diff i (parseVersion a) (parseVersion b) hpre hgt

/-- C8 witness: "v1.10.0" compares higher than "v1.2.0" (10 > 2 numerically,
not lexically), by the first-differing-segment rule at segment 1. -/
theorem compareVersions_first_diff_witness : compareVersions "v1.10.0" "v1.2.0" = 1 :=
  compareVersions_first_diff "v1.10.0" "v1.2.0" 1
    (fun j hj => by
      have hj0 : j = 0 := by omega
      subst hj0
      decide)
    (by decide)

/-! ## Single-stop update: started_at / completed_at bookkeeping (C1, C10) -/

/-- A stop that has already been started and completed (concrete failing
input for the `started_at` claim). -/
def sampleStop : Stop :=
  { id := 1, number := 1, title := "QA sign-off", description := none,
    owner_type := "person", owner_name := "Dana", status := .done,
    started_at := some 5, completed_at := some 6, updated_by := some 3 }

/-- The demo-engine counterpart of `sampleStop`. -/
def sampleRunStop : RunStop :=
  { id := 1, status := .done, startedAt := some 5, completedAt := some 6, notes := [] }

/-- C1: the Supabase `updateStopStatus` does NOT leave `started_at` untouched
when a stop whose `started_at` is already set transitions (back) to
`in_progress`: its guard reads the fresh `updates` object instead of the
stored row, so `started_at` is overwritten with the current time (here 42,
clobbering 5).  The demo hook `useReleaseData.ts`, whose guard reads the
stop, keeps the original value — evidence that the overwrite is a slip. -/
theorem updateStopStatus_overwrites_started_at :
    sampleStop.started_at = some 5 ∧
    (applyStopUpdate sampleStop .in_progress 9 42).started_at = some 42 ∧
    sampleRunStop.startedAt = some 5 ∧
    (demoUpdateStop sampleRunStop .in_progress 42).startedAt = some 5 :=
  ⟨rfl, rfl, rfl, rfl⟩

/-- C10: a status update targeting `done` never assigns `started_at` — the
stop keeps its previous value (in both engines) while `completed_at` is set
to the current time; in particular a stop taken straight from `not_started`
to `done` ends with `completed_at` set and `started_at` still `null`. -/
theorem updateStopStatus_done_keeps_started_at (s : Stop) (r : RunStop) (actor now : Nat) :
    (applyStopUpdate s .done actor now).started_at = s.started_at ∧
    (applyStopUpdate s .done actor now).completed_at = some now ∧
    (demoUpdateStop r .done now).startedAt = r.startedAt ∧
    (demoUpdateStop r .done now).completedAt = some now := by
  refine ⟨rfl, rfl, ?_, rfl⟩
  show (if StopStatus.done = .in_progress ∧ r.startedAt = none then some now
    else r.startedAt) = r.startedAt
  rw [if_neg]
  rintro ⟨h, -⟩
  exact absurd h (by decide)

/-! ## resetTrain (C9) -/

theorem resetStopRow_id (s : Stop) (actor : Nat) : (resetStopRow s actor).id = s.id :=
  rfl

theorem resetStopRow_idem (s : Stop) (actor : Nat) :
    resetStopRow (resetStopRow s actor) actor = resetStopRow s actor :=
  rfl

theorem resetLoop_eq (actor : Nat) :
    ∀ (iter db : List Stop), resetLoop actor db iter =
      db.map fun s => if s.id ∈ iter.map Stop.id then resetStopRow s actor else s := by
  intro iter
  induction iter with
  | nil =>
    intro db
    simp [resetLoop]
  | cons a rest ih =>
    intro db
    rw [resetLoop, ih, List.map_map]
    refine List.map_congr_left fun s _ => ?_
    by_cases h1 : s.id = a.id <;> by_cases h2 : s.id ∈ rest.map Stop.id <;>
      simp [Function.comp, List.mem_cons, h1, h2, resetStopRow_id, resetStopRow_idem]

/-- C9: `resetTrain` (with edit capability) sets every stop of the train to
`not_started` with `started_at = null`, `completed_at = null` and
`updated_by = actor`, leaves every other stop field unchanged, and leaves the
notes untouched. -/
theorem resetTrain_spec (st : TrainState) (actor : Nat) :
    resetTrain true st actor = .ok
      { stops := st.stops.map fun s =>
          { s with
            status := .not_started
            started_at := none
            completed_at := none
            updated_by := some actor }
        notes := st.notes } := by
  show Except.ok ({ stops := resetLoop actor st.stops st.stops, notes := st.notes } :
    TrainState) = _
  rw [resetLoop_eq]
  congr 2
  refine List.map_congr_left fun s hs => ?_
  rw [if_pos (List.mem_map_of_mem Stop.id hs)]
  rfl

/-! ## Roster editor renumbering (C4) -/

theorem renumberFrom_map_number :
    ∀ (l : List Stop) (k : Nat), (renumberFrom k l).map Stop.number =
      List.range' k l.length := by
  intro l
  induction l with
  | nil => intro k; rfl
  | cons s rest ih =>
    intro k
    rw [renumberFrom, List.map_cons, List.length_cons, List.range'_succ, ih]

/-- C4: after any `updateReleaseStops` call (any stops to add, any stop ids to
delete, admin capability present), the surviving stops' `number` values are
exactly the contiguous sequence `1..N`, `N` the number of surviving stops:
position by position they read `1, 2, ..., N`, and a value occurs among them
iff it lies between `1` and `N`. -/
theorem updateReleaseStops_contiguous (stops : List Stop) (stopsToAdd : List StopSpec)
    (stopIdsToDelete : List Nat) (freshId : Nat) (r : List Stop)
    (h : updateReleaseStops true stops stopsToAdd stopIdsToDelete freshId = .ok r) :
    r.map Stop.number = List.range' 1 r.length ∧
    ∀ n, n ∈ r.map Stop.number ↔ (1 ≤ n ∧ n ≤ r.length) := by
  have hr : r = renumberFrom 1 (List.insertionSort numberLe
      ((stops.filter fun s => !(stopIdsToDelete.contains s.id)) ++
        stopsToAdd.enum.map fun p => specToStop (freshId + p.1) p.2)) := by
    have h' := h
    rw [updateReleaseStops] at h'
    simpa using h'.symm
  have hlen : r.length = (List.insertionSort numberLe
      ((stops.filter fun s => !(stopIdsToDelete.contains s.id)) ++
        stopsToAdd.enum.map fun p => specToStop (freshId + p.1) p.2)).length := by
    rw [hr]
    have : ∀ (l : List Stop) (k : Nat), (renumberFrom k l).length = l.length := by
      intro l
      induction l with
      | nil => intro k; rfl
      | cons s rest ih => intro k; rw [renumberFrom, List.length_cons, List.length_cons, ih]
    exact this _ 1
  constructor
  · rw [hr, renumberFrom_map_number, ← hlen, hr]
  · intro n
    rw [hr, renumberFrom_map_number, ← hlen, hr, List.mem_range']
    constructor
    · rintro ⟨i, hi, rfl⟩
      omega
    · intro hn
      exact ⟨n - 1, by omega, by omega⟩

/-- A concrete stop with default text fields, used in witnesses. -/
def mkStop (i n : Nat) : Stop :=
  { id := i, number := n, title := "stop", description := none,
    owner_type := "person", owner_name := "owner", status := .not_started,
    started_at := none, completed_at := none, updated_by := none }

/-- C4 witness: a five-stop train with numbers 1..5; deleting the stop with
id 3 renumbers the survivors to 1..4. -/
theorem updateReleaseStops_contiguous_witness :
    ([mkStop 1 1, mkStop 2 2, mkStop 4 3, mkStop 5 4].map Stop.number =
      List.range' 1 [mkStop 1 1, mkStop 2 2, mkStop 4 3, mkStop 5 4].length) ∧
    ∀ n, n ∈ [mkStop 1 1, mkStop 2 2, mkStop 4 3, mkStop 5 4].map Stop.number ↔
      (1 ≤ n ∧ n ≤ [mkStop 1 1, mkStop 2 2, mkStop 4 3, mkStop 5 4].length) :=
  updateReleaseStops_contiguous
    [mkStop 1 1, mkStop 2 2, mkStop 3 3, mkStop 4 4, mkStop 5 5] [] [3] 100
    [mkStop 1 1, mkStop 2 2, mkStop 4 3, mkStop 5 4] rfl

/-! ## Progression-engine unfolding lemmas -/

theorem updateStopStatus_true (stops : List Stop) (sid : Nat) (st : StopStatus)
    (a n : Nat) : updateStopStatus true stops sid st a n = .ok (updStops stops sid st a n) :=
  rfl

theorem updStops_of_ne (sid : Nat) (st : StopStatus) (a n : Nat) :
    ∀ l : List Stop, (∀ x ∈ l, x.id ≠ sid) → updStops l sid st a n = l
  | [], _ => rfl
  | x :: xs, h => by
    rw [updStops, List.map_cons, if_neg (h x (List.mem_cons_self x xs))]
    have hxs := updStops_of_ne sid st a n xs fun y hy => h y (List.mem_cons_of_mem x hy)
    rw [updStops] at hxs
    rw [hxs]

theorem advance_eq_of_none (stops : List Stop) (a n1 n2 : Nat)
    (h : stops.findIdx? (fun s => s.status == .in_progress) = none) :
    advanceToNextStop true stops a n1 n2 = .ok stops := by
  rw [advanceToNextStop, h]
  rfl

theorem advance_eq_some_mid (stops : List Stop) (a n1 n2 i : Nat) (cur nxt : Stop)
    (h : stops.findIdx? (fun s => s.status == .in_progress) = some i)
    (hc : stops[i]? = some cur) (hn : stops[i+1]? = some nxt) :
    advanceToNextStop true stops a n1 n2 =
      .ok (updStops (updStops stops cur.id .done a n1) nxt.id .in_progress a n2) := by
  rw [advanceToNextStop, h]
  dsimp only
  rw [hc, hn]
  rfl

theorem advance_eq_some_last (stops : List Stop) (a n1 n2 i : Nat) (cur : Stop)
    (h : stops.findIdx? (fun s => s.status == .in_progress) = some i)
    (hc : stops[i]? = some cur) (hn : stops[i+1]? = none) :
    advanceToNextStop true stops a n1 n2 = .ok (updStops stops cur.id .done a n1) := by
  rw [advanceToNextStop, h]
  dsimp only
  rw [hc, hn]
  rfl

theorem start_eq_of_none (stops : List Stop) (a n : Nat)
    (h : stops.find? (fun s => s.number == 1) = none) :
    startTrain true stops a n = .error .noStopsFound := by
  rw [startTrain, h]
  rfl

theorem start_eq_found_ns (stops : List Stop) (a n : Nat) (s1 : Stop)
    (h : stops.find? (fun s => s.number == 1) = some s1)
    (hs : s1.status = .not_started) :
    startTrain true stops a n = .ok (updStops stops s1.id .in_progress a n) := by
  rw [startTrain, h]
  dsimp only
  rw [if_pos hs]
  rfl

theorem start_eq_found_other (stops : List Stop) (a n : Nat) (s1 : Stop)
    (h : stops.find? (fun s => s.number == 1) = some s1)
    (hs : s1.status ≠ .not_started) :
    startTrain true stops a n = .error .alreadyStarted := by
  rw [startTrain, h]
  dsimp only
  rw [if_neg hs]
  rfl

/-! ## advanceToNextStop is a no-op without an in-progress stop (C7) -/

/-- C7: on a train none of whose stops is `in_progress`, `advanceToNextStop`
performs no stop write and raises no error — the supabase hook returns the
stop list unchanged inside `.ok`, and the demo hook returns the run value
unchanged. -/
theorem advanceToNextStop_noop (stops : List Stop) (actor n1 n2 : Nat)
    (h : ∀ s ∈ stops, s.status ≠ .in_progress)
    (run : ReleaseRun) (now : Nat)
    (hrun : ∀ s ∈ run.stops, s.status ≠ .in_progress) :
    advanceToNextStop true stops actor n1 n2 = .ok stops ∧
    demoAdvanceToNextStop run now = run := by
  constructor
  · refine advance_eq_of_none stops actor n1 n2 ?_
    rw [List.findIdx?_eq_none_iff]
    intro x hx
    simpa using h x hx
  · have hf : run.stops.findIdx? (fun s => s.status == .in_progress) = none := by
      rw [List.findIdx?_eq_none_iff]
      intro x hx
      simpa using hrun x hx
    rw [demoAdvanceToNextStop, hf]

/-- C7 witness: a two-stop train with both stops `done`, and a demo run with
one `blocked` stop; advancing changes nothing. -/
theorem advanceToNextStop_noop_witness :
    advanceToNextStop true [{ mkStop 1 1 with status := .done }, { mkStop 2 2 with status := .done }] 7 3 4 =
      .ok [{ mkStop 1 1 with status := .done }, { mkStop 2 2 with status := .done }] ∧
    demoAdvanceToNextStop ⟨1, 0, [⟨1, .blocked, none, none, []⟩]⟩ 9 =
      ⟨1, 0, [⟨1, .blocked, none, none, []⟩]⟩ :=
  advanceToNextStop_noop _ 7 3 4 (by decide) _ 9 (by decide)

/-! ## advanceToNextStop frame effect (C5) -/

theorem applyStopUpdate_id (s : Stop) (st : StopStatus) (a n : Nat) :
    (applyStopUpdate s st a n).id = s.id :=
  rfl

theorem applyStopUpdate_number (s : Stop) (st : StopStatus) (a n : Nat) :
    (applyStopUpdate s st a n).number = s.number :=
  rfl

theorem applyStopUpdate_status (s : Stop) (st : StopStatus) (a n : Nat) :
    (applyStopUpdate s st a n).status = st :=
  rfl

/-- C5: on a train whose stops read done, done, in_progress, not_started, ...
(stop #3 active, #4 next), `advanceToNextStop` makes stop #3 `done` with
`completed_at` stamped, makes stop #4 `in_progress` with `started_at`
stamped (and `completed_at` cleared), and leaves every other stop — and every
other field of the two touched stops — unchanged. -/
theorem advanceToNextStop_scenarioB (s1 s2 s3 s4 : Stop) (rest : List Stop)
    (actor n1 n2 : Nat)
    (hids : ((s1 :: s2 :: s3 :: s4 :: rest).map Stop.id).Nodup)
    (h1 : s1.status = .done) (h2 : s2.status = .done)
    (h3 : s3.status = .in_progress) (h3n : s3.number = 3) (h4n : s4.number = 4)
    (h4 : s4.status = .not_started) (hrest : ∀ s ∈ rest, s.status = .not_started) :
    advanceToNextStop true (s1 :: s2 :: s3 :: s4 :: rest) actor n1 n2 =
      .ok (s1 :: s2 ::
        { s3 with status := .done, completed_at := some n1, updated_by := some actor } ::
        { s4 with
          status := .in_progress
          started_at := some n2
          completed_at := none
          updated_by := some actor } :: rest) := by
  simp only [List.map_cons, List.nodup_cons, List.mem_cons, List.mem_map, not_or] at hids
  obtain ⟨⟨h12, h13, h14, hr1⟩, ⟨h23, h24, hr2⟩, ⟨h34, hr3⟩, hr4, -⟩ := hids
  have hf : (s1 :: s2 :: s3 :: s4 :: rest).findIdx?
      (fun s => s.status == .in_progress) = some 2 := by
    simp [List.findIdx?_cons, h1, h2, h3]
  rw [advance_eq_some_mid (s1 :: s2 :: s3 :: s4 :: rest) actor n1 n2 2 s3 s4 hf
    (by simp) (by simp)]
  have hrest3 : List.map (fun s =>
      if s.id = s3.id then applyStopUpdate s .done actor n1 else s) rest = rest := by
    have h := updStops_of_ne s3.id .done actor n1 rest fun y hy hne =>
      hr3 ⟨y, hy, hne⟩
    rwa [updStops] at h
  have hrest4 : List.map (fun s =>
      if s.id = s4.id then applyStopUpdate s .in_progress actor n2 else s) rest = rest := by
    have h := updStops_of_ne s4.id .in_progress actor n2 rest fun y hy hne =>
      hr4 ⟨y, hy, hne⟩
    rwa [updStops] at h
  have e1 : updStops (s1 :: s2 :: s3 :: s4 :: rest) s3.id .done actor n1 =
      s1 :: s2 :: applyStopUpdate s3 .done actor n1 :: s4 :: rest := by
    rw [updStops, List.map_cons, List.map_cons, List.map_cons, List.map_cons,
      if_neg h13, if_neg h23, if_pos rfl, if_neg fun h => h34 h.symm, hrest3]
  rw [e1]
  have e2 : updStops (s1 :: s2 :: applyStopUpdate s3 .done actor n1 :: s4 :: rest)
      s4.id .in_progress actor n2 =
      s1 :: s2 :: applyStopUpdate s3 .done actor n1 ::
        applyStopUpdate s4 .in_progress actor n2 :: rest := by
    rw [updStops, List.map_cons, List.map_cons, List.map_cons, List.map_cons,
      if_neg h14, if_neg h24, if_neg ?hmid, if_pos rfl, hrest4]
    case hmid =>
      rw [applyStopUpdate_id]
      exact h34
  rw [e2]
  rfl

/-- C5 witness: the ten-stop scenario-B train. -/
theorem advanceToNextStop_scenarioB_witness :
    advanceToNextStop true
      ({ mkStop 1 1 with status := .done } :: { mkStop 2 2 with status := .done } ::
        { mkStop 3 3 with status := .in_progress } :: mkStop 4 4 :: [mkStop 5 5,
        mkStop 6 6, mkStop 7 7, mkStop 8 8, mkStop 9 9, mkStop 10 10]) 7 21 22 =
      .ok ({ mkStop 1 1 with status := .done } :: { mkStop 2 2 with status := .done } ::
        { { mkStop 3 3 with status := .in_progress } with
          status := .done, completed_at := some 21, updated_by := some 7 } ::
        { mkStop 4 4 with
          status := .in_progress
          started_at := some 22
          completed_at := none
          updated_by := some 7 } :: [mkStop 5 5,
        mkStop 6 6, mkStop 7 7, mkStop 8 8, mkStop 9 9, mkStop 10 10]) :=
  advanceToNextStop_scenarioB { mkStop 1 1 with status := .done }
    { mkStop 2 2 with status := .done } { mkStop 3 3 with status := .in_progress }
    (mkStop 4 4) [mkStop 5 5, mkStop 6 6, mkStop 7 7, mkStop 8 8, mkStop 9 9, mkStop 10 10]
    7 21 22 (by decide) rfl rfl rfl rfl rfl rfl (by decide)

/-! ## startTrain error and success behaviour (C6) -/

theorem find?_number_one_of_nodup :
    ∀ stops : List Stop, (stops.map Stop.number).Nodup →
      ∀ s ∈ stops, s.number = 1 → stops.find? (fun x => x.number == 1) = some s
  | [], _, s, hs, _ => absurd hs (List.not_mem_nil s)
  | a :: rest, hnum, s, hs, h1 => by
    simp only [List.map_cons, List.nodup_cons] at hnum
    rcases List.mem_cons.mp hs with rfl | hmem
    · exact List.find?_cons_of_pos rest (by simp [h1])
    · have hone : (1 : Nat) ∈ rest.map Stop.number := by
        have := List.mem_map_of_mem Stop.number hmem
        rwa [h1] at this
      have hne : a.number ≠ 1 := fun ha => hnum.1 (by rwa [ha])
      rw [List.find?_cons_of_neg rest (by simp [hne])]
      exact find?_number_one_of_nodup rest hnum.2 s hmem h1

/-- C6: with edit capability and distinct stop numbers, `startTrain` fails
with the no-stops error exactly when no stop is numbered 1, fails with the
already-started error exactly when the stop numbered 1 exists with a status
other than `not_started`, and otherwise transitions the stop numbered 1 to
`in_progress`, stamping its `started_at` (and clearing `completed_at`). -/
theorem startTrain_spec (stops : List Stop) (actor now : Nat)
    (hnum : (stops.map Stop.number).Nodup) :
    (startTrain true stops actor now = .error .noStopsFound ↔
      ∀ s ∈ stops, s.number ≠ 1) ∧
    (startTrain true stops actor now = .error .alreadyStarted ↔
      ∃ s ∈ stops, s.number = 1 ∧ s.status ≠ .not_started) ∧
    (∀ s ∈ stops, s.number = 1 → s.status = .not_started →
      startTrain true stops actor now = .ok (stops.map fun x =>
        if x.id = s.id then
          { x with
            status := .in_progress
            started_at := some now
            completed_at := none
            updated_by := some actor }
        else x)) := by
  rcases hf : stops.find? (fun s => s.number == 1) with _ | s1
  · have hrw := start_eq_of_none stops actor now hf
    have hall : ∀ s ∈ stops, s.number ≠ 1 := by
      intro s hs
      have := List.find?_eq_none.mp hf s hs
      simpa using this
    refine ⟨⟨fun _ => hall, fun _ => hrw⟩, ⟨?_, ?_⟩, ?_⟩
    · intro h
      rw [hrw] at h
      simp at h
    · rintro ⟨s, hs, hone, -⟩
      exact absurd hone (hall s hs)
    · intro s hs hone _
      exact absurd hone (hall s hs)
  · have hs1mem := List.mem_of_find?_eq_some hf
    have hs1num : s1.number = 1 := by simpa using List.find?_some hf
    have huniq : ∀ s ∈ stops, s.number = 1 → s = s1 := by
      intro s hs hone
      have h := find?_number_one_of_nodup stops hnum s hs hone
      rw [hf] at h
      exact (Option.some_inj.mp h).symm
    by_cases hst : s1.status = .not_started
    · have hrw := start_eq_found_ns stops actor now s1 hf hst
      refine ⟨⟨?_, ?_⟩, ⟨?_, ?_⟩, ?_⟩
      · intro h
        rw [hrw] at h
        simp at h
      · intro hall
        exact absurd hs1num (hall s1 hs1mem)
      · intro h
        rw [hrw] at h
        simp at h
      · rintro ⟨s, hs, hone, hstat⟩
        rw [huniq s hs hone] at hstat
        exact absurd hst hstat
      · intro s hs hone hstat
        rw [huniq s hs hone]
        rw [hrw]
        rfl
    · have hrw := start_eq_found_other stops actor now s1 hf hst
      refine ⟨⟨?_, ?_⟩, ⟨fun _ => ⟨s1, hs1mem, hs1num, hst⟩, fun _ => hrw⟩, ?_⟩
      · intro h
        rw [hrw] at h
        simp at h
      · intro hall
        exact absurd hs1num (hall s1 hs1mem)
      · intro s hs hone hstat
        rw [huniq s hs hone] at hstat
        exact absurd hstat hst

/-- C6 witness: a fresh two-stop train starts: stop #1 (id 10) becomes
`in_progress` with `started_at` stamped. -/
theorem startTrain_spec_witness :
    startTrain true [mkStop 10 1, mkStop 20 2] 7 5 =
      .ok ([mkStop 10 1, mkStop 20 2].map fun x =>
        if x.id = (mkStop 10 1).id then
          { x with
            status := .in_progress
            started_at := some 5
            completed_at := none
            updated_by := some 7 }
        else x) :=
  (startTrain_spec [mkStop 10 1, mkStop 20 2] 7 5 (by decide)).2.2
    (mkStop 10 1) (by decide) rfl rfl

/-! ## Single-active-stop invariant machinery (C2) -/

/-- Number of `in_progress` stops. -/
def ipCount (stops : List Stop) : Nat :=
  stops.countP fun s => s.status == .in_progress

/-- Number of `blocked` stops. -/
def blockedCount (stops : List Stop) : Nat :=
  stops.countP fun s => s.status == .blocked

theorem activeStopCount_eq (stops : List Stop) :
    activeStopCount stops = ipCount stops + blockedCount stops := by
  induction stops with
  | nil => rfl
  | cons s rest ih =>
    rw [activeStopCount, List.filter_cons] at *
    rw [ipCount, blockedCount, List.countP_cons, List.countP_cons] at *
    cases hs : s.status <;> simp only [isActiveStop, hs] <;> simp <;> omega

theorem applyOp_start_eq_of_ok {stops l : List Stop} {actor t : Nat}
    (h : startTrain true stops actor t = .ok l) :
    applyOp actor stops t .start = l := by
  simp only [applyOp]
  rw [h]

theorem applyOp_start_eq_of_error {stops : List Stop} {actor t : Nat} {e : EngineError}
    (h : startTrain true stops actor t = .error e) :
    applyOp actor stops t .start = stops := by
  simp only [applyOp]
  rw [h]

theorem applyOp_advance_eq_of_ok {stops l : List Stop} {actor t : Nat}
    (h : advanceToNextStop true stops actor t (t+1) = .ok l) :
    applyOp actor stops t .advance = l := by
  simp only [applyOp]
  rw [h]

theorem applyOp_update_eq (actor t sid : Nat) (st : StopStatus) (stops : List Stop) :
    applyOp actor stops t (.update sid st) = updStops stops sid st actor t :=
  rfl

theorem advance_eq_none_row (stops : List Stop) (a n1 n2 i : Nat)
    (h : stops.findIdx? (fun s => s.status == .in_progress) = some i)
    (hc : stops[i]? = none) :
    advanceToNextStop true stops a n1 n2 = .ok stops := by
  rw [advanceToNextStop, h]
  dsimp only
  rw [hc]
  rfl

theorem updStops_map_id (stops : List Stop) (sid : Nat) (st : StopStatus) (a n : Nat) :
    (updStops stops sid st a n).map Stop.id = stops.map Stop.id := by
  rw [updStops, List.map_map]
  refine List.map_congr_left fun s _ => ?_
  by_cases h : s.id = sid <;> simp [Function.comp, h, applyStopUpdate_id]

theorem find?_updStops_number (stops : List Stop) (sid : Nat) (st : StopStatus)
    (a n : Nat) :
    (updStops stops sid st a n).find? (fun s => s.number == 1) =
      (stops.find? (fun s => s.number == 1)).map
        (fun s => if s.id = sid then applyStopUpdate s st a n else s) := by
  rw [updStops, List.find?_map]
  have hfn : ((fun s : Stop => s.number == 1) ∘
      fun s => if s.id = sid then applyStopUpdate s st a n else s) =
      fun s : Stop => s.number == 1 := by
    funext s
    by_cases h : s.id = sid <;> simp [Function.comp, h, applyStopUpdate_number]
  rw [hfn]

theorem ids_applyOp (actor t : Nat) (stops : List Stop) (op : EngineOp) :
    (applyOp actor stops t op).map Stop.id = stops.map Stop.id := by
  cases op with
  | start =>
    rcases hf : stops.find? (fun s => s.number == 1) with _ | s1
    · rw [applyOp_start_eq_of_error (start_eq_of_none stops actor t hf)]
    · by_cases hst : s1.status = .not_started
      · rw [applyOp_start_eq_of_ok (start_eq_found_ns stops actor t s1 hf hst),
          updStops_map_id]
      · rw [applyOp_start_eq_of_error (start_eq_found_other stops actor t s1 hf hst)]
  | advance =>
    rcases hf : stops.findIdx? (fun s => s.status == .in_progress) with _ | i
    · rw [applyOp_advance_eq_of_ok (advance_eq_of_none stops actor t (t+1) hf)]
    · rcases hc : stops[i]? with _ | cur
      · rw [applyOp_advance_eq_of_ok (advance_eq_none_row stops actor t (t+1) i hf hc)]
      · rcases hn : stops[i+1]? with _ | nxt
        · rw [applyOp_advance_eq_of_ok
            (advance_eq_some_last stops actor t (t+1) i cur hf hc hn), updStops_map_id]
        · rw [applyOp_advance_eq_of_ok
            (advance_eq_some_mid stops actor t (t+1) i cur nxt hf hc hn),
            updStops_map_id, updStops_map_id]
  | update sid st => rw [applyOp_update_eq, updStops_map_id]

theorem nodup_decomp_ids {l1 l2 : List Stop} {s1 : Stop}
    (hids : ((l1 ++ s1 :: l2).map Stop.id).Nodup) :
    (∀ x ∈ l1, x.id ≠ s1.id) ∧ (∀ x ∈ l2, x.id ≠ s1.id) := by
  rw [List.map_append, List.map_cons] at hids
  obtain ⟨-, h2, hdisj⟩ := List.nodup_append.mp hids
  constructor
  · intro x hx h
    exact hdisj (h ▸ List.mem_map_of_mem Stop.id hx) (List.mem_cons_self _ _)
  · intro x hx h
    exact (List.nodup_cons.mp h2).1 (h ▸ List.mem_map_of_mem Stop.id hx)

theorem nodup_decomp2_ids {l1 l2 : List Stop} {x y : Stop}
    (h : ((l1 ++ x :: y :: l2).map Stop.id).Nodup) :
    (∀ z ∈ l1, z.id ≠ x.id) ∧ (∀ z ∈ y :: l2, z.id ≠ x.id) ∧
    (∀ z ∈ l1, z.id ≠ y.id) ∧ (∀ z ∈ l2, z.id ≠ y.id) := by
  obtain ⟨ha, hb⟩ := @nodup_decomp_ids l1 (y :: l2) x h
  have h' : (((l1 ++ [x]) ++ y :: l2).map Stop.id).Nodup := by
    rwa [← List.append_cons]
  obtain ⟨hc, hd⟩ := @nodup_decomp_ids (l1 ++ [x]) l2 y h'
  exact ⟨ha, hb, fun z hz => hc z (List.mem_append_left _ hz), hd⟩

/-- The inductive invariant: no blocked stop, at most one in-progress stop,
and either the train is virgin or its first stop (by `number = 1`) has been
started, so `startTrain` can never fire again. -/
def EngineInv (stops : List Stop) : Prop :=
  blockedCount stops = 0 ∧ ipCount stops ≤ 1 ∧
  ((∀ s ∈ stops, s.status = .not_started) ∨
    (∃ s1, stops.find? (fun s => s.number == 1) = some s1 ∧ s1.status ≠ .not_started))

theorem inv_applyOp_start (actor t : Nat) (stops : List Stop)
    (hids : (stops.map Stop.id).Nodup) (hinv : EngineInv stops) :
    EngineInv (applyOp actor stops t .start) := by
  obtain ⟨hb, hip, hlr⟩ := hinv
  rcases hf : stops.find? (fun s => s.number == 1) with _ | s1
  · rw [applyOp_start_eq_of_error (start_eq_of_none stops actor t hf)]
    exact ⟨hb, hip, hlr⟩
  · by_cases hst : s1.status = .not_started
    · rw [applyOp_start_eq_of_ok (start_eq_found_ns stops actor t s1 hf hst)]
      have hns : ∀ s ∈ stops, s.status = .not_started := by
        rcases hlr with h | ⟨s1', hf', hs'⟩
        · exact h
        · rw [hf] at hf'
          cases Option.some_inj.mp hf'
          exact absurd hst hs'
      -- the third conjunct, before decomposing the list
      have h3 : ∃ sh, (updStops stops s1.id .in_progress actor t).find?
          (fun s => s.number == 1) = some sh ∧ sh.status ≠ .not_started := by
        refine ⟨applyStopUpdate s1 .in_progress actor t, ?_, by simp [applyStopUpdate_status]⟩
        rw [find?_updStops_number, hf, Option.map_some', if_pos rfl]
      obtain ⟨l1, l2, hdec⟩ := List.append_of_mem (List.mem_of_find?_eq_some hf)
      obtain ⟨hne1, hne2⟩ := nodup_decomp_ids (hdec ▸ hids)
      have e1 := updStops_of_ne s1.id .in_progress actor t l1 hne1
      have e2 := updStops_of_ne s1.id .in_progress actor t l2 hne2
      rw [updStops] at e1 e2
      have hupd : updStops stops s1.id .in_progress actor t =
          l1 ++ applyStopUpdate s1 .in_progress actor t :: l2 := by
        rw [hdec, updStops, List.map_append, List.map_cons, if_pos rfl, e1, e2]
      refine ⟨?_, ?_, Or.inr h3⟩
      · rw [hupd, blockedCount, List.countP_append, List.countP_cons]
        have z1 : List.countP (fun s => s.status == StopStatus.blocked) l1 = 0 :=
          List.countP_eq_zero.mpr fun s hs => by
            simp [hns s (hdec ▸ List.mem_append_left _ hs)]
        have z2 : List.countP (fun s => s.status == StopStatus.blocked) l2 = 0 :=
          List.countP_eq_zero.mpr fun s hs => by
            simp [hns s (hdec ▸ List.mem_append_right _ (List.mem_cons_of_mem _ hs))]
        simp [z1, z2, applyStopUpdate_status]
      · rw [hupd, ipCount, List.countP_append, List.countP_cons]
        have z1 : List.countP (fun s => s.status == StopStatus.in_progress) l1 = 0 :=
          List.countP_eq_zero.mpr fun s hs => by
            simp [hns s (hdec ▸ List.mem_append_left _ hs)]
        have z2 : List.countP (fun s => s.status == StopStatus.in_progress) l2 = 0 :=
          List.countP_eq_zero.mpr fun s hs => by
            simp [hns s (hdec ▸ List.mem_append_right _ (List.mem_cons_of_mem _ hs))]
        simp [z1, z2, applyStopUpdate_status]
    · rw [applyOp_start_eq_of_error (start_eq_found_other stops actor t s1 hf hst)]
      exact ⟨hb, hip, hlr⟩

theorem inv_applyOp_advance (actor t : Nat) (stops : List Stop)
    (hids : (stops.map Stop.id).Nodup) (hinv : EngineInv stops) :
    EngineInv (applyOp actor stops t .advance) := by
  obtain ⟨hb, hip, hlr⟩ := hinv
  rcases hf : stops.findIdx? (fun s => s.status == .in_progress) with _ | i
  · rw [applyOp_advance_eq_of_ok (advance_eq_of_none stops actor t (t+1) hf)]
    exact ⟨hb, hip, hlr⟩
  · rcases hc : stops[i]? with _ | cur
    · rw [applyOp_advance_eq_of_ok (advance_eq_none_row stops actor t (t+1) i hf hc)]
      exact ⟨hb, hip, hlr⟩
    · have hcur : cur.status = .in_progress := by
        have h := List.findIdx?_of_eq_some hf
        rw [hc] at h
        simpa using h
      have hlr' : ∃ s1, stops.find? (fun s => s.number == 1) = some s1 ∧
          s1.status ≠ .not_started := by
        rcases hlr with h | h
        · have := h cur (List.getElem?_mem hc)
          rw [hcur] at this
          exact absurd this (by simp)
        · exact h
      obtain ⟨s1, hf1, hs1⟩ := hlr'
      rcases hn : stops[i+1]? with _ | nxt
      · -- the active stop is the last one: only it is marked done
        rw [applyOp_advance_eq_of_ok (advance_eq_some_last stops actor t (t+1) i cur hf hc hn)]
        have h3 : ∃ sh, (updStops stops cur.id .done actor t).find?
            (fun s => s.number == 1) = some sh ∧ sh.status ≠ .not_started := by
          rw [find?_updStops_number, hf1, Option.map_some']
          refine ⟨_, rfl, ?_⟩
          by_cases h1 : s1.id = cur.id
          · rw [if_pos h1]
            simp [applyStopUpdate_status]
          · rw [if_neg h1]
            exact hs1
        obtain ⟨l1, l2, hdec⟩ := List.append_of_mem (List.getElem?_mem hc)
        obtain ⟨hne1, hne2⟩ := nodup_decomp_ids (hdec ▸ hids)
        have e1 := updStops_of_ne cur.id .done actor t l1 hne1
        have e2 := updStops_of_ne cur.id .done actor t l2 hne2
        rw [updStops] at e1 e2
        have hupd : updStops stops cur.id .done actor t =
            l1 ++ applyStopUpdate cur .done actor t :: l2 := by
          rw [hdec, updStops, List.map_append, List.map_cons, if_pos rfl, e1, e2]
        rw [hdec, blockedCount, List.countP_append, List.countP_cons] at hb
        rw [hdec, ipCount, List.countP_append, List.countP_cons] at hip
        simp only [hcur] at hb hip
        simp only [show (StopStatus.in_progress == StopStatus.blocked) = false from rfl,
          show (StopStatus.in_progress == StopStatus.in_progress) = true from rfl,
          if_false, if_true] at hb hip
        refine ⟨?_, ?_, Or.inr h3⟩
        · rw [hupd, blockedCount, List.countP_append, List.countP_cons]
          simp only [applyStopUpdate_status,
            show (StopStatus.done == StopStatus.blocked) = false from rfl, if_false]
          omega
        · rw [hupd, ipCount, List.countP_append, List.countP_cons]
          simp only [applyStopUpdate_status,
            show (StopStatus.done == StopStatus.in_progress) = false from rfl, if_false]
          omega
      · -- there is a next stop: current marked done, next marked in_progress
        rw [applyOp_advance_eq_of_ok (advance_eq_some_mid stops actor t (t+1) i cur nxt hf hc hn)]
        have h3 : ∃ sh, (updStops (updStops stops cur.id .done actor t)
            nxt.id .in_progress actor (t+1)).find?
            (fun s => s.number == 1) = some sh ∧ sh.status ≠ .not_started := by
          rw [find?_updStops_number, find?_updStops_number, hf1, Option.map_some',
            Option.map_some']
          refine ⟨_, rfl, ?_⟩
          split_ifs <;> first | exact hs1 | simp [applyStopUpdate_status]
        obtain ⟨hi, hieq⟩ := List.getElem?_eq_some_iff.mp hc
        obtain ⟨hi1, hi1eq⟩ := List.getElem?_eq_some_iff.mp hn
        have hdec : stops = stops.take i ++ cur :: nxt :: stops.drop (i+2) := by
          conv_lhs => rw [← List.take_append_drop i stops]
          rw [List.drop_eq_getElem_cons hi, hieq, List.drop_eq_getElem_cons hi1, hi1eq]
        obtain ⟨l1, l2, hdec⟩ : ∃ l1 l2, stops = l1 ++ cur :: nxt :: l2 := ⟨_, _, hdec⟩
        obtain ⟨hx1, hxy2, hy1, hy2⟩ := nodup_decomp2_ids (hdec ▸ hids)
        have hnx : nxt.id ≠ cur.id := hxy2 nxt (List.mem_cons_self _ _)
        have hx2 : ∀ z ∈ l2, z.id ≠ cur.id := fun z hz => hxy2 z (List.mem_cons_of_mem _ hz)
        have eA1 := updStops_of_ne cur.id .done actor t l1 hx1
        have eA2 := updStops_of_ne cur.id .done actor t l2 hx2
        rw [updStops] at eA1 eA2
        have eB1 := updStops_of_ne nxt.id .in_progress actor (t+1) l1 hy1
        have eB2 := updStops_of_ne nxt.id .in_progress actor (t+1) l2 hy2
        rw [updStops] at eB1 eB2
        have e1 : updStops stops cur.id .done actor t =
            l1 ++ applyStopUpdate cur .done actor t :: nxt :: l2 := by
          rw [hdec, updStops, List.map_append, List.map_cons, List.map_cons,
            if_pos rfl, if_neg hnx, eA1, eA2]
        have e2 : updStops (l1 ++ applyStopUpdate cur .done actor t :: nxt :: l2)
            nxt.id .in_progress actor (t+1) =
            l1 ++ applyStopUpdate cur .done actor t ::
              applyStopUpdate nxt .in_progress actor (t+1) :: l2 := by
          rw [updStops, List.map_append, List.map_cons, List.map_cons,
            if_neg (by rw [applyStopUpdate_id]; exact fun h => hnx h.symm),
            if_pos rfl, eB1, eB2]
        rw [e1, e2]
        rw [e1, e2] at h3
        rw [hdec, blockedCount, List.countP_append, List.countP_cons, List.countP_cons] at hb
        rw [hdec, ipCount, List.countP_append, List.countP_cons, List.countP_cons] at hip
        simp only [hcur] at hb hip
        simp only [show (StopStatus.in_progress == StopStatus.blocked) = false from rfl,
          show (StopStatus.in_progress == StopStatus.in_progress) = true from rfl,
          if_false, if_true] at hb hip
        refine ⟨?_, ?_, Or.inr h3⟩
        · rw [blockedCount, List.countP_append, List.countP_cons, List.countP_cons]
          simp only [applyStopUpdate_status,
            show (StopStatus.done == StopStatus.blocked) = false from rfl,
            show (StopStatus.in_progress == StopStatus.blocked) = false from rfl, if_false]
          omega
        · rw [ipCount, List.countP_append, List.countP_cons, List.countP_cons]
          simp only [applyStopUpdate_status,
            show (StopStatus.done == StopStatus.in_progress) = false from rfl,
            show (StopStatus.in_progress == StopStatus.in_progress) = true from rfl,
            if_false, if_true]
          cases hnb : (nxt.status == StopStatus.in_progress) <;> simp [hnb] at hip ⊢ <;> omega

/-- C2 (amended): for a train whose stops start all `not_started` (distinct
row ids), any sequence of `startTrain` and `advanceToNextStop` calls issued
through the engine leaves at most one stop with status in
`{in_progress, blocked}`. -/
theorem engine_single_active (actor : Nat) (ops : List EngineOp) (stops : List Stop)
    (t0 : Nat) (hids : (stops.map Stop.id).Nodup)
    (hinit : ∀ s ∈ stops, s.status = .not_started)
    (hops : ∀ op ∈ ops, op = .start ∨ op = .advance) :
    activeStopCount (runOps actor ops stops t0) ≤ 1 := by
  have hinv : EngineInv stops := by
    refine ⟨List.countP_eq_zero.mpr fun s hs => by simp [hinit s hs],
      ?_, Or.inl hinit⟩
    rw [ipCount, List.countP_eq_zero.mpr fun s hs => by simp [hinit s hs]]
    omega
  have main : ∀ (ops' : List EngineOp) (l : List Stop) (t : Nat),
      (l.map Stop.id).Nodup → EngineInv l →
      (∀ op ∈ ops', op = .start ∨ op = .advance) →
      EngineInv (runOps actor ops' l t) := by
    intro ops'
    induction ops' with
    | nil =>
      intro l t _ hi _
      exact hi
    | cons op rest ih =>
      intro l t hnd hi hops'
      rw [runOps]
      refine ih _ _ ?_ ?_ fun op' h' => hops' op' (List.mem_cons_of_mem _ h')
      · rw [ids_applyOp]
        exact hnd
      · rcases hops' op (List.mem_cons_self _ _) with h | h <;> rw [h]
        · exact inv_applyOp_start actor t l hnd hi
        · exact inv_applyOp_advance actor t l hnd hi
  obtain ⟨hb, hip, -⟩ := main ops stops t0 hids hinv hops
  rw [activeStopCount_eq]
  omega

/-- C2 amended-theorem witness: start then advance on a fresh two-stop train. -/
theorem engine_single_active_witness :
    activeStopCount (runOps 7 [.start, .advance] [mkStop 1 1, mkStop 2 2] 0) ≤ 1 :=
  engine_single_active 7 [.start, .advance] [mkStop 1 1, mkStop 2 2] 0
    (by decide) (by decide) (by decide)

/-- C2 counterexample: the claim as stated also admits `updateStopStatus`
calls in the sequence.  From an all-`not_started` two-stop train (distinct
ids), `startTrain` followed by `updateStopStatus(stop 2, in_progress)` —
both issued through the engine — leaves BOTH stops `in_progress`, so more
than one stop of the train is in `{in_progress, blocked}`. -/
theorem engine_single_active_counterexample :
    (∀ s ∈ [mkStop 1 1, mkStop 2 2], s.status = StopStatus.not_started) ∧
    ([mkStop 1 1, mkStop 2 2].map Stop.id).Nodup ∧
    1 < activeStopCount
      (runOps 7 [.start, .update 2 .in_progress] [mkStop 1 1, mkStop 2 2] 0) := by
  refine ⟨by decide, by decide, by decide⟩

/-! ## Track classification (C3) -/

/-- Condition under which the classification loop pushes a release onto
`currentActive`. -/
def caTest (latestActive : Option Release) (r : Release) : Bool :=
  !r.is_complete && idMatches latestActive r

/-- Condition under which the classification loop pushes a release onto
`recentlyCompleted`. -/
def rcTest (firstCompleted : Option Release) (r : Release) : Bool :=
  r.is_complete && idMatches firstCompleted r

/-- Condition under which the classification loop pushes a release onto
`archived`. -/
def arTest (latestActive firstCompleted : Option Release) (r : Release) : Bool :=
  (!r.is_complete && !idMatches latestActive r) ||
    (r.is_complete && !idMatches firstCompleted r)

theorem classify_foldl (la fc : Option Release) :
    ∀ (l : List Release) (acc : TrackBuckets),
      l.foldl (classifyStep la fc) acc =
        ⟨acc.currentActive ++ l.filter (caTest la),
         acc.recentlyCompleted ++ l.filter (rcTest fc),
         acc.archived ++ l.filter (arTest la fc)⟩ := by
  intro l
  induction l with
  | nil =>
    intro acc
    simp
  | cons r rest ih =>
    intro acc
    rw [List.foldl_cons, ih]
    by_cases hc : r.is_complete <;> by_cases hm1 : idMatches la r <;>
      by_cases hm2 : idMatches fc r <;>
      simp [classifyStep, caTest, rcTest, arTest, List.filter_cons, hc, hm1, hm2]

theorem find?_eq_head?_filter {α : Type} (p : α → Bool) :
    ∀ l : List α, l.find? p = (l.filter p).head? := by
  intro l
  induction l with
  | nil => rfl
  | cons a t ih =>
    by_cases h : p a
    · rw [List.find?_cons_of_pos _ h, List.filter_cons_of_pos h]
      rfl
    · rw [List.find?_cons_of_neg _ h, List.filter_cons_of_neg h, ih]

theorem filter_eq_singleton_of_ids {p : Release → Bool} :
    ∀ {l : List Release} {a : Release}, (l.map Release.id).Nodup → a ∈ l →
      p a = true → (∀ x ∈ l, p x = true → x.id = a.id) → l.filter p = [a] := by
  intro l
  induction l with
  | nil =>
    intro a _ ha _ _
    exact absurd ha (List.not_mem_nil a)
  | cons x xs ih =>
    intro a hn ha hp huniq
    simp only [List.map_cons, List.nodup_cons] at hn
    by_cases hx : p x
    · have hxa : x.id = a.id := huniq x (List.mem_cons_self _ _) hx
      have hxa' : x = a := by
        rcases List.mem_cons.mp ha with rfl | hmem
        · rfl
        · exact absurd (hxa ▸ List.mem_map_of_mem Release.id hmem) hn.1
      subst hxa'
      rw [List.filter_cons_of_pos hx]
      have hnil : xs.filter p = [] := by
        rw [List.filter_eq_nil_iff]
        intro y hy hpy
        have : y.id = x.id := huniq y (List.mem_cons_of_mem _ hy) hpy
        exact hn.1 (this ▸ List.mem_map_of_mem Release.id hy)
      rw [hnil]
    · have hmem : a ∈ xs := by
        rcases List.mem_cons.mp ha with rfl | hmem
        · exact absurd hp hx
        · exact hmem
      rw [List.filter_cons_of_neg hx]
      exact ih hn.2 hmem hp fun y hy hpy => huniq y (List.mem_cons_of_mem _ hy) hpy

theorem head?_filter_eq_of_max {l : List Release} (hs : List.Pairwise vle l)
    (hids : (l.map Release.id).Nodup) {p : Release → Bool} {a : Release}
    (ha : a ∈ l) (hpa : p a = true)
    (hmax : ∀ r ∈ l, p r = true → r.id ≠ a.id →
      compareVersions a.version r.version = 1) :
    (l.filter p).head? = some a := by
  have hsf : List.Pairwise vle (l.filter p) := hs.sublist (List.filter_sublist l)
  have haf : a ∈ l.filter p := List.mem_filter.mpr ⟨ha, hpa⟩
  cases hfl : l.filter p with
  | nil =>
    rw [hfl] at haf
    exact absurd haf (List.not_mem_nil a)
  | cons y ys =>
    rw [hfl] at haf hsf
    rcases List.mem_cons.mp haf with rfl | hmem
    · rfl
    · by_cases hya : y = a
      · rw [hya]
        rfl
      · have hyf : y ∈ l.filter p := by
          rw [hfl]
          exact List.mem_cons_self _ _
        have hy : y ∈ l := (List.mem_filter.mp hyf).1
        have hpy : p y = true := (List.mem_filter.mp hyf).2
        have hyne : y.id ≠ a.id := fun h =>
          hya (List.inj_on_of_nodup_map hids hy ha h)
        have h1 := hmax y hy hpy hyne
        have hvle : compareVersions a.version y.version ≤ 0 :=
          (List.pairwise_cons.mp hsf).1 a hmem
        omega

/-- C3 (amended): per track, with distinct release ids, the classification
assigns `currentActive` to the strictly highest-version not-complete release,
`recentlyCompleted` to the strictly highest-version COMPLETE release — the
first complete entry of the version-descending sort, not the most recently
updated one — and `archived` to every other release of the track. -/
theorem classifyTrack_spec (releases : List Release) (appId : Nat) (plat : Platform)
    (ts : List Release) (hts : ts = trackGroup releases appId plat)
    (hids : (ts.map Release.id).Nodup) (wa wc : Release)
    (hwaMem : wa ∈ ts) (hwaNC : wa.is_complete = false)
    (hwaMax : ∀ r ∈ ts, r.is_complete = false → r.id ≠ wa.id →
      compareVersions wa.version r.version = 1)
    (hwcMem : wc ∈ ts) (hwcC : wc.is_complete = true)
    (hwcMax : ∀ r ∈ ts, r.is_complete = true → r.id ≠ wc.id →
      compareVersions wc.version r.version = 1) :
    (classifyTrack ts).currentActive = [wa] ∧
    (classifyTrack ts).recentlyCompleted = [wc] ∧
    ∀ r ∈ ts, r.id ≠ wa.id → r.id ≠ wc.id → r ∈ (classifyTrack ts).archived := by
  have hperm : List.Perm (List.insertionSort vle ts) ts := List.perm_insertionSort vle ts
  have hmem : ∀ {x : Release}, x ∈ List.insertionSort vle ts ↔ x ∈ ts :=
    fun {x} => hperm.mem_iff
  have hsids : ((List.insertionSort vle ts).map Release.id).Nodup :=
    (hperm.map Release.id).nodup_iff.mpr hids
  have hsort : List.Pairwise vle (List.insertionSort vle ts) :=
    List.sorted_insertionSort vle ts
  have hla : (List.insertionSort vle ts).find? (fun r => !r.is_complete) = some wa := by
    rw [find?_eq_head?_filter]
    refine head?_filter_eq_of_max hsort hsids (hmem.mpr hwaMem) (by simp [hwaNC]) ?_
    intro r hr hpr hne
    exact hwaMax r (hmem.mp hr) (by simpa using hpr) hne
  have hfc : ((List.insertionSort vle ts).filter fun r => r.is_complete).head? =
      some wc := by
    refine head?_filter_eq_of_max hsort hsids (hmem.mpr hwcMem) (by simp [hwcC]) ?_
    intro r hr hpr hne
    exact hwcMax r (hmem.mp hr) hpr hne
  have hct : classifyTrack ts =
      ⟨(List.insertionSort vle ts).filter (caTest (some wa)),
       (List.insertionSort vle ts).filter (rcTest (some wc)),
       (List.insertionSort vle ts).filter (arTest (some wa) (some wc))⟩ := by
    rw [classifyTrack]
    rw [hla, hfc, classify_foldl]
    simp [caTest, rcTest, arTest]
  refine ⟨?_, ?_, ?_⟩
  · rw [hct]
    refine filter_eq_singleton_of_ids hsids (hmem.mpr hwaMem) ?_ ?_
    · simp [caTest, idMatches, hwaNC]
    · intro x hx hpx
      simp only [caTest, idMatches, Bool.and_eq_true, Bool.not_eq_true',
        beq_iff_eq] at hpx
      exact hpx.2
  · rw [hct]
    refine filter_eq_singleton_of_ids hsids (hmem.mpr hwcMem) ?_ ?_
    · simp [rcTest, idMatches, hwcC]
    · intro x hx hpx
      simp only [rcTest, idMatches, Bool.and_eq_true, beq_iff_eq] at hpx
      exact hpx.2
  · intro r hr hra hrc
    rw [hct]
    refine List.mem_filter.mpr ⟨hmem.mpr hr, ?_⟩
    by_cases hc : r.is_complete <;> simp [arTest, idMatches, hc, hra, hrc]

/-- A completed 2.0.0 release updated at time 10. -/
def relTwoDone : Release :=
  { id := 1, app_id := 1, platform := .ios, version := "2.0.0",
    updated_at := 10, is_complete := true }

/-- A completed 1.0.0 release updated more recently, at time 20. -/
def relOneRecent : Release :=
  { id := 2, app_id := 1, platform := .ios, version := "1.0.0",
    updated_at := 20, is_complete := true }

/-- C3 counterexample: among complete releases of one track the
most-recently-updated one is NOT the one classified "recently completed":
with both releases complete and the 1.0.0 release updated last, the
classification still picks the higher-version 2.0.0 release (first of the
version-descending sort) and archives the most recently updated one. -/
theorem classifyTrack_counterexample :
    relTwoDone.is_complete = true ∧ relOneRecent.is_complete = true ∧
    relTwoDone.updated_at < relOneRecent.updated_at ∧
    trackGroup [relOneRecent, relTwoDone] 1 .ios = [relOneRecent, relTwoDone] ∧
    (classifyTrack [relOneRecent, relTwoDone]).recentlyCompleted = [relTwoDone] ∧
    relOneRecent ∈ (classifyTrack [relOneRecent, relTwoDone]).archived := by
  decide

/-- The not-complete v1.10.0 release of the witness track. -/
def relTenActive : Release :=
  { id := 3, app_id := 1, platform := .ios, version := "v1.10.0",
    updated_at := 30, is_complete := false }

/-- The not-complete v1.2.0 release of the witness track. -/
def relTwoActive : Release :=
  { id := 4, app_id := 1, platform := .ios, version := "v1.2.0",
    updated_at := 40, is_complete := false }

/-- C3 amended-theorem witness: a track holding two not-complete releases
(v1.10.0, v1.2.0) and two complete ones (2.0.0, 1.0.0): v1.10.0 is the sole
current-active release, 2.0.0 the sole recently-completed one, and the other
two are archived. -/
theorem classifyTrack_spec_witness :
    (classifyTrack [relTwoActive, relOneRecent, relTenActive, relTwoDone]).currentActive =
      [relTenActive] ∧
    (classifyTrack [relTwoActive, relOneRecent, relTenActive, relTwoDone]).recentlyCompleted =
      [relTwoDone] ∧
    ∀ r ∈ [relTwoActive, relOneRecent, relTenActive, relTwoDone],
      r.id ≠ relTenActive.id → r.id ≠ relTwoDone.id →
      r ∈ (classifyTrack [relTwoActive, relOneRecent, relTenActive, relTwoDone]).archived :=
  classifyTrack_spec [relTwoActive, relOneRecent, relTenActive, relTwoDone] 1 .ios
    [relTwoActive, relOneRecent, relTenActive, relTwoDone] (by decide) (by decide)
    relTenActive relTwoDone (by decide) rfl (by decide) (by decide) rfl (by decide)

end ReleaseDash
